import Mathlib

/-!
Shallow embedding of the ml-notebooks repository: the reverse-mode
automatic-differentiation engine and training/evaluation loop driver that the
notebooks exercise, together with the notebook-level loops (`train_loop`,
`test_loop` from `optimizing_model_params.ipynb`) and the two prediction
paths (argmax after softmax versus argmax on raw logits) from
`build_neural_network.ipynb`.
-/

/-- A tensor: a shape together with flattened rational data.
A scalar has shape `[]`. -/
structure Tensor where
  shape : List Nat
  data : List ℚ
deriving DecidableEq

namespace Tensor

/-- Number of elements of a shape. -/
def numel (s : List Nat) : Nat := s.foldl (· * ·) 1

/-- The zero tensor of a given shape. -/
def zeros (s : List Nat) : Tensor := ⟨s, List.replicate (numel s) 0⟩

/-- A constant tensor of a given shape. -/
def fill (s : List Nat) (v : ℚ) : Tensor := ⟨s, List.replicate (numel s) v⟩

/-- Elementwise addition (shape taken from the first operand). -/
def add (a b : Tensor) : Tensor := ⟨a.shape, List.zipWith (· + ·) a.data b.data⟩

/-- Elementwise multiplication. -/
def mul (a b : Tensor) : Tensor := ⟨a.shape, List.zipWith (· * ·) a.data b.data⟩

/-- Elementwise subtraction. -/
def sub (a b : Tensor) : Tensor := ⟨a.shape, List.zipWith (· - ·) a.data b.data⟩

/-- Scalar multiple. -/
def scale (c : ℚ) (a : Tensor) : Tensor := ⟨a.shape, a.data.map (fun x => c * x)⟩

/-- A tensor is a scalar when its shape is empty. -/
def isScalar (a : Tensor) : Bool := a.shape.isEmpty

end Tensor

/-- Operation kinds of the modelled engine: elementwise arithmetic and a
sum-to-scalar reduction. -/
inductive OpKind
  | add
  | mul
  | sumAll
deriving DecidableEq

/-- Operation record: stores the operation kind and the operand node indices,
used to propagate gradients backward. -/
structure OpRec where
  kind : OpKind
  inputs : List Nat
deriving DecidableEq

/-- A graph node: a value, a tracking flag, an optional operation record
(`none` for leaves), and a mutable gradient accumulator. -/
structure Node where
  value : Tensor
  requiresGrad : Bool
  gradFn : Option OpRec
  grad : Tensor
deriving DecidableEq

/-- Engine context: the global tracking flag plus the node store.  Nodes form
a DAG by indexing: a node's operands have strictly smaller indices. -/
structure Ctx where
  gradEnabled : Bool
  nodes : List Node
deriving DecidableEq

/-- Error taxonomy of the engine and driver. -/
inductive AutogradError
  | shapeMismatch
  | graphError
  | configurationError
  | missingGradSeed
deriving DecidableEq

namespace Ctx

/-- Value stored at a node index (zero scalar when out of range). -/
def getValue (ctx : Ctx) (i : Nat) : Tensor :=
  ((ctx.nodes[i]?).map Node.value).getD (Tensor.zeros [])

/-- Tracking flag of a node index (`false` when out of range). -/
def isTracked (ctx : Ctx) (i : Nat) : Bool :=
  ((ctx.nodes[i]?).map Node.requiresGrad).getD false

/-- The backward-relevant core of the node store: values and operation
records only (gradient slots and flags stripped). -/
def cores (ctx : Ctx) : List (Tensor × Option OpRec) :=
  ctx.nodes.map (fun nd => (nd.value, nd.gradFn))

end Ctx

/-- Forward evaluation of one operation on its operand values. -/
def evalOp : OpKind → List Tensor → Tensor
  | .add, [a, b] => a.add b
  | .mul, [a, b] => a.mul b
  | .sumAll, [a] => ⟨[], [a.data.sum]⟩
  | _, _ => Tensor.zeros []

/-- Modelled from the spec: the forward-execution contract of the Autodiff
Engine (implemented by the external library; only invoked by the notebooks).
The operation computes its value deterministically and, only if global
tracking is enabled and at least one input has tracking enabled, the new node
carries tracking enabled and an operation record; otherwise the result is a
plain value with no graph attachment. -/
def forwardOp (ctx : Ctx) (k : OpKind) (ins : List Nat) : Ctx :=
  let v := evalOp k (ins.map ctx.getValue)
  let tracked := ctx.gradEnabled && ins.any ctx.isTracked
  let nd : Node :=
    { value := v
      requiresGrad := tracked
      gradFn := if tracked then some ⟨k, ins⟩ else none
      grad := Tensor.zeros v.shape }
  { ctx with nodes := ctx.nodes ++ [nd] }

/-- Outcome of a block run inside the scoped no-tracking region: normal
completion, early return, or a raised error. -/
inductive Outcome
  | normal
  | earlyReturn
  | raised (e : AutogradError)
deriving DecidableEq

/-- Modelled from the spec: scoped disabling of gradient tracking
(`torch.no_grad()` in the notebooks, implemented by the external library).
On entry the global tracking state is saved and set to disabled; on exit the
prior state is restored unconditionally, whatever the body did or returned. -/
def noGradRun {α : Type} (f : Ctx → α × Ctx) (ctx : Ctx) : α × Ctx :=
  let saved := ctx.gradEnabled
  let r := f { ctx with gradEnabled := false }
  (r.1, { r.2 with gradEnabled := saved })

/-- Add a tensor into position `j` of a gradient buffer. -/
def bufAdd (buf : List Tensor) (j : Nat) (t : Tensor) : List Tensor :=
  match buf[j]? with
  | some old => buf.set j (old.add t)
  | none => buf

/-- One step of reverse traversal: propagate the buffered gradient of node
`i` to its operands through the operation record's rule. -/
def backPropStep (cores : List (Tensor × Option OpRec)) (buf : List Tensor)
    (i : Nat) : List Tensor :=
  match cores[i]?, buf[i]? with
  | some (_, some r), some g =>
    match r.kind, r.inputs with
    | .add, [a, b] => bufAdd (bufAdd buf a g) b g
    | .mul, [a, b] =>
      let va := ((cores[a]?).map Prod.fst).getD (Tensor.zeros [])
      let vb := ((cores[b]?).map Prod.fst).getD (Tensor.zeros [])
      bufAdd (bufAdd buf a (g.mul vb)) b (g.mul va)
    | .sumAll, [a] =>
      let va := ((cores[a]?).map Prod.fst).getD (Tensor.zeros [])
      bufAdd buf a (Tensor.fill va.shape (g.data.headD 0))
    | _, _ => buf
  | _, _ => buf

/-- Gradient contributions of one backward traversal: a fresh buffer seeded
at the output node, folded through the nodes in reverse index order (a
reverse topological order of the DAG).  Depends only on values and operation
records, never on the persistent gradient slots. -/
def contribsCore (cores : List (Tensor × Option OpRec)) (o : Nat)
    (seed : Tensor) : List Tensor :=
  let buf0 := (cores.map (fun c => Tensor.zeros c.1.shape)).set o seed
  ((List.range cores.length).reverse).foldl (backPropStep cores) buf0

/-- Accumulate computed contributions into the gradient slots of tracked
nodes (accumulation, not overwrite). -/
def accumulateGrads (nodes : List Node) (cs : List Tensor) : List Node :=
  List.zipWith
    (fun nd c => if nd.requiresGrad then { nd with grad := nd.grad.add c } else nd)
    nodes cs

/-- Contributions accumulated into the context's gradient slots. -/
def Ctx.applyGrads (ctx : Ctx) (o : Nat) (s : Tensor) : Ctx :=
  { ctx with nodes := accumulateGrads ctx.nodes (contribsCore ctx.cores o s) }

/-- Modelled from the spec: the backward pass of the Autodiff Engine
(`loss.backward()` in the notebooks, implemented by the external library).
Fails with a GraphError when the output node is untracked; a missing seed on
a scalar output defaults to the multiplicative identity; a missing seed on a
non-scalar output is an error; otherwise the computed gradient of the output
with respect to every tracked node is added into that node's slot. -/
def backward (ctx : Ctx) (o : Nat) (seed? : Option Tensor) :
    Except AutogradError Ctx :=
  match ctx.nodes[o]? with
  | none => .error .graphError
  | some nd =>
    if nd.requiresGrad then
      match seed? with
      | some s => .ok (ctx.applyGrads o s)
      | none =>
        if nd.value.isScalar then .ok (ctx.applyGrads o ⟨[], [1]⟩)
        else .error .missingGradSeed
    else .error .graphError

/-- Helper for `zeroGrad`: walk the node store with its index, resetting the
gradient slot of every parameter index to the zero tensor of its shape. -/
def zeroGradsFrom (ps : List Nat) : Nat → List Node → List Node
  | _, [] => []
  | i, nd :: rest =>
    (if i ∈ ps then { nd with grad := Tensor.zeros nd.value.shape } else nd)
      :: zeroGradsFrom ps (i + 1) rest

/-- Modelled from the spec: the optimizer's gradient zeroing step
(`optimizer.zero_grad()` in the notebooks, implemented by the external
library).  `ps` is the set of parameter node indices registered with the
optimizer. -/
def zeroGrad (ps : List Nat) (ctx : Ctx) : Ctx :=
  { ctx with nodes := zeroGradsFrom ps 0 ctx.nodes }

/-- Helper for `sgdStep`: walk the node store with its index, applying the
plain gradient-descent rule to every parameter index. -/
def sgdStepFrom (ps : List Nat) (lr : ℚ) : Nat → List Node → List Node
  | _, [] => []
  | i, nd :: rest =>
    (if i ∈ ps then { nd with value := nd.value.sub (Tensor.scale lr nd.grad) } else nd)
      :: sgdStepFrom ps lr (i + 1) rest

/-- Modelled from the spec: the optimizer's update rule (`optimizer.step()`
in the notebooks, implemented by the external library): each registered
parameter's value becomes value − learning rate × accumulated gradient. -/
def sgdStep (ps : List Nat) (lr : ℚ) (ctx : Ctx) : Ctx :=
  { ctx with nodes := sgdStepFrom ps lr 0 ctx.nodes }

/-- Per-batch body of `train_loop` from `optimizing_model_params.ipynb`:
`pred = model(X); loss = loss_fn(pred, y); loss.backward();
optimizer.step(); optimizer.zero_grad()`.  `lossOf` abstracts the forward
evaluation of the model and the loss computation: it grows the graph and
returns the index of the loss node. -/
def trainStep {β : Type} (lossOf : β → Ctx → Ctx × Nat) (ps : List Nat)
    (lr : ℚ) (ctx : Ctx) (b : β) : Except AutogradError Ctx :=
  match backward (lossOf b ctx).1 (lossOf b ctx).2 none with
  | .error e => .error e
  | .ok ctx2 => .ok (zeroGrad ps (sgdStep ps lr ctx2))

/-- Embedding of `train_loop` from `optimizing_model_params.ipynb`: iterate
the per-batch body over the batches in the data source's order, aborting the
phase on the first error. -/
def train_loop {β : Type} (lossOf : β → Ctx → Ctx × Nat) (ps : List Nat)
    (lr : ℚ) : List β → Ctx → Except AutogradError Ctx
  | [], ctx => .ok ctx
  | b :: bs, ctx =>
    match trainStep lossOf ps lr ctx b with
    | .error e => .error e
    | .ok ctx' => train_loop lossOf ps lr bs ctx'

/-- First index of a maximal element of a list (`argmax` in the notebooks;
ties resolve to the first occurrence). -/
def argmaxAux {α : Type} [LinearOrder α] : List α → Nat → α → Nat → Nat
  | [], _, _, best => best
  | v :: rest, i, bv, best =>
    if bv < v then argmaxAux rest (i + 1) v i else argmaxAux rest (i + 1) bv best

/-- Index of the first maximal element of a list (0 for the empty list). -/
def argmaxIdx {α : Type} [LinearOrder α] : List α → Nat
  | [] => 0
  | v :: rest => argmaxAux rest 1 v 0

/-- One batch of labelled evaluation data: the raw input `x` and the list of
true class labels `y`. -/
structure Batch (β : Type) where
  x : β
  y : List Nat

/-- `(pred.argmax(1) == y).type(torch.float).sum()` from `test_loop`: the
number of examples whose predicted class (argmax of the prediction vector)
equals the true label. -/
def countCorrect (preds : List (List ℚ)) (y : List Nat) : ℚ :=
  (List.zipWith (fun p l => if argmaxIdx p = l then (1 : ℚ) else 0) preds y).sum

/-- Per-batch body of `test_loop`: forward the batch, accumulate the batch
loss into `test_loss` and the correct-prediction count into `correct`. -/
def evalStep {β : Type} (fwd : β → Ctx → Ctx × List (List ℚ))
    (lossFn : List (List ℚ) → List Nat → ℚ)
    (st : Ctx × ℚ × ℚ) (b : Batch β) : Ctx × ℚ × ℚ :=
  let r := fwd b.x st.1
  (r.1, st.2.1 + lossFn r.2 b.y, st.2.2 + countCorrect r.2 b.y)

/-- Embedding of `test_loop` from `optimizing_model_params.ipynb`: inside the
scoped no-tracking region, fold the evaluation body over all batches; then
report mean loss (total loss over number of batches) and accuracy (correct
count over dataset size, the total number of examples). -/
def test_loop {β : Type} (fwd : β → Ctx → Ctx × List (List ℚ))
    (lossFn : List (List ℚ) → List Nat → ℚ)
    (batches : List (Batch β)) (ctx : Ctx) : Ctx × ℚ × ℚ :=
  let size : ℚ := ((batches.map (fun b => b.y.length)).sum : ℕ)
  let numBatches : ℚ := (batches.length : ℕ)
  let r := noGradRun (fun c =>
    let st := batches.foldl (evalStep fwd lossFn) (c, 0, 0)
    ((st.2.1, st.2.2), st.1)) ctx
  (r.2, r.1.1 / numBatches, r.1.2 / size)

/-- Per-batch evaluation trace: the list of (batch loss, batch correct
count) pairs produced while folding the evaluation body over the batches. -/
def evalTrace {β : Type} (fwd : β → Ctx → Ctx × List (List ℚ))
    (lossFn : List (List ℚ) → List Nat → ℚ) :
    List (Batch β) → Ctx → List (ℚ × ℚ)
  | [], _ => []
  | b :: bs, c =>
    let r := fwd b.x c
    (lossFn r.2 b.y, countCorrect r.2 b.y) :: evalTrace fwd lossFn bs r.1

/-- Configuration surface of the training entry point. -/
structure Config where
  learningRate : ℚ
  batchSize : Int
  epochs : Int
deriving DecidableEq

/-- Modelled from the spec: one-time setup validation of the training entry
point's configuration (the notebooks set `learning_rate`, `batch_size`,
`epochs` and hand them to library constructors): a non-positive learning
rate, batch size, or epoch count is a ConfigurationError. -/
def validateConfig (cfg : Config) : Except AutogradError Config :=
  if 0 < cfg.learningRate ∧ 0 < cfg.batchSize ∧ 0 < cfg.epochs then .ok cfg
  else .error .configurationError

/-- One epoch of the driver: the train phase over the training batches, then
the evaluation phase over the test batches. -/
def runEpoch {β γ : Type} (lossOf : β → Ctx → Ctx × Nat)
    (fwd : γ → Ctx → Ctx × List (List ℚ))
    (lossFn : List (List ℚ) → List Nat → ℚ) (ps : List Nat) (lr : ℚ)
    (trainBatches : List β) (testBatches : List (Batch γ)) (ctx : Ctx) :
    Except AutogradError Ctx :=
  match train_loop lossOf ps lr trainBatches ctx with
  | .error e => .error e
  | .ok c => .ok (test_loop fwd lossFn testBatches c).1

/-- The configured number of train+evaluate cycles. -/
def runEpochs {β γ : Type} (lossOf : β → Ctx → Ctx × Nat)
    (fwd : γ → Ctx → Ctx × List (List ℚ))
    (lossFn : List (List ℚ) → List Nat → ℚ) (ps : List Nat) (lr : ℚ)
    (trainBatches : List β) (testBatches : List (Batch γ)) :
    Nat → Ctx → Except AutogradError Ctx
  | 0, ctx => .ok ctx
  | n + 1, ctx =>
    match runEpoch lossOf fwd lossFn ps lr trainBatches testBatches ctx with
    | .error e => .error e
    | .ok c => runEpochs lossOf fwd lossFn ps lr trainBatches testBatches n c

/-- Modelled from the spec: the training entry point.  Configuration is
validated once at setup; only on success does any epoch run. -/
def trainEntry {β γ : Type} (cfg : Config) (lossOf : β → Ctx → Ctx × Nat)
    (fwd : γ → Ctx → Ctx × List (List ℚ))
    (lossFn : List (List ℚ) → List Nat → ℚ) (ps : List Nat)
    (trainBatches : List β) (testBatches : List (Batch γ)) (ctx : Ctx) :
    Except AutogradError Ctx :=
  match validateConfig cfg with
  | .error e => .error e
  | .ok c =>
    runEpochs lossOf fwd lossFn ps c.learningRate trainBatches testBatches
      c.epochs.toNat ctx

/-- Softmax over a logits vector, as applied by `nn.Softmax(dim=1)` in
`build_neural_network.ipynb` to each row of the logits. -/
noncomputable def softmax (l : List ℝ) : List ℝ :=
  l.map (fun x => Real.exp x / (l.map Real.exp).sum)

/-! ### Structural lemmas about the backward pass -/

theorem bufAdd_length (buf : List Tensor) (j : Nat) (t : Tensor) :
    (bufAdd buf j t).length = buf.length := by
  unfold bufAdd
  split
  · simp
  · rfl

theorem backPropStep_length (cores : List (Tensor × Option OpRec))
    (buf : List Tensor) (i : Nat) :
    (backPropStep cores buf i).length = buf.length := by
  unfold backPropStep
  split
  · split <;> simp [bufAdd_length]
  · rfl

theorem foldl_backPropStep_length (cores : List (Tensor × Option OpRec)) :
    ∀ (l : List Nat) (buf : List Tensor),
      (l.foldl (backPropStep cores) buf).length = buf.length := by
  intro l
  induction l with
  | nil => intro buf; rfl
  | cons i t ih =>
    intro buf
    rw [List.foldl_cons, ih, backPropStep_length]

theorem contribsCore_length (cores : List (Tensor × Option OpRec)) (o : Nat)
    (s : Tensor) : (contribsCore cores o s).length = cores.length := by
  unfold contribsCore
  rw [foldl_backPropStep_length, List.length_set, List.length_map]

theorem accumulateGrads_cores (ns : List Node) (cs : List Tensor)
    (h : ns.length ≤ cs.length) :
    (accumulateGrads ns cs).map (fun nd => (nd.value, nd.gradFn)) =
      ns.map (fun nd => (nd.value, nd.gradFn)) := by
  induction ns generalizing cs with
  | nil => rfl
  | cons nd rest ih =>
    cases cs with
    | nil => simp at h
    | cons c cs' =>
      simp only [accumulateGrads, List.zipWith_cons_cons, List.map_cons,
        List.cons.injEq]
      refine ⟨?_, ih cs' (by simpa using h)⟩
      split <;> rfl

theorem zipWith_add_add_eq_map_double (xs ys : List ℚ)
    (h : ∀ x ∈ xs, x = 0) :
    List.zipWith (· + ·) (List.zipWith (· + ·) xs ys) ys =
      (List.zipWith (· + ·) xs ys).map (fun x => 2 * x) := by
  induction xs generalizing ys with
  | nil => rfl
  | cons x xs' ih =>
    cases ys with
    | nil => rfl
    | cons y ys' =>
      have hx : x = 0 := h x (by simp)
      simp only [List.zipWith_cons_cons, List.map_cons, List.cons.injEq]
      exact ⟨by rw [hx]; ring, ih ys' (fun z hz => h z (by simp [hz]))⟩

theorem add_add_eq_scale_two (g0 c : Tensor) (h : ∀ x ∈ g0.data, x = 0) :
    (g0.add c).add c = Tensor.scale 2 (g0.add c) := by
  simp only [Tensor.add, Tensor.scale]
  rw [zipWith_add_add_eq_map_double g0.data c.data h]

theorem backward_none_inv (ctx ctx1 : Ctx) (o : Nat)
    (h : backward ctx o none = .ok ctx1) :
    ∃ nd, ctx.nodes[o]? = some nd ∧ nd.requiresGrad = true ∧
      nd.value.isScalar = true ∧ ctx1 = ctx.applyGrads o ⟨[], [1]⟩ := by
  unfold backward at h
  rcases hno : ctx.nodes[o]? with _ | nd
  · rw [hno] at h
    simp at h
  · rw [hno] at h
    simp only at h
    by_cases hr : nd.requiresGrad = true
    · rw [if_pos hr] at h
      by_cases hs : nd.value.isScalar = true
      · rw [if_pos hs] at h
        exact ⟨nd, rfl, hr, hs, (Except.ok.inj h).symm⟩
      · rw [if_neg hs] at h
        simp at h
    · rw [if_neg hr] at h
      simp at h

theorem backward_none_ok (ctx : Ctx) (o : Nat) (nd : Node)
    (hno : ctx.nodes[o]? = some nd) (hr : nd.requiresGrad = true)
    (hs : nd.value.isScalar = true) :
    backward ctx o none = .ok (ctx.applyGrads o ⟨[], [1]⟩) := by
  unfold backward
  rw [hno]
  simp [hr, hs]

/-- C1: for every leaf node with tracking enabled whose gradient slot starts
at zero, invoking the backward pass twice in succession on the same scalar
output, without zeroing gradients in between, yields exactly double the
gradient value that a single invocation yields: gradients accumulate
additively into the slot rather than overwriting it. -/
theorem backward_twice_doubles_grad (ctx ctx1 : Ctx) (o i : Nat) (nd : Node)
    (h1 : backward ctx o none = .ok ctx1)
    (hnd : ctx.nodes[i]? = some nd)
    (_hleaf : nd.gradFn = none)
    (htrack : nd.requiresGrad = true)
    (hzero : ∀ x ∈ nd.grad.data, x = 0) :
    ∃ ctx2 nd1 nd2, backward ctx1 o none = .ok ctx2 ∧
      ctx1.nodes[i]? = some nd1 ∧ ctx2.nodes[i]? = some nd2 ∧
      nd2.grad = Tensor.scale 2 nd1.grad := by
  obtain ⟨ndo, hno, hro, hso, hctx1⟩ := backward_none_inv ctx ctx1 o h1
  set cs := contribsCore ctx.cores o ⟨[], [1]⟩ with hcsdef
  have hlen : cs.length = ctx.nodes.length := by
    rw [hcsdef, contribsCore_length]
    simp [Ctx.cores]
  have hilt : i < ctx.nodes.length := (List.getElem?_eq_some.mp hnd).1
  have holt : o < ctx.nodes.length := (List.getElem?_eq_some.mp hno).1
  have hics : i < cs.length := by rw [hlen]; exact hilt
  have hocs : o < cs.length := by rw [hlen]; exact holt
  obtain ⟨c, hci⟩ : ∃ c, cs[i]? = some c := ⟨cs[i], List.getElem?_eq_getElem hics⟩
  obtain ⟨co, hco⟩ : ∃ co, cs[o]? = some co := ⟨cs[o], List.getElem?_eq_getElem hocs⟩
  have hnodes1 : ctx1.nodes = accumulateGrads ctx.nodes cs := by
    rw [hctx1]; rfl
  have hcores1 : ctx1.cores = ctx.cores := by
    simp only [Ctx.cores]
    rw [hnodes1, accumulateGrads_cores ctx.nodes cs hlen.ge]
  have hnd1 : ctx1.nodes[i]? = some { nd with grad := nd.grad.add c } := by
    rw [hnodes1]
    simp only [accumulateGrads]
    rw [List.getElem?_zipWith', hnd, hci]
    simp [htrack]
  have hndo1 : ctx1.nodes[o]? = some { ndo with grad := ndo.grad.add co } := by
    rw [hnodes1]
    simp only [accumulateGrads]
    rw [List.getElem?_zipWith', hno, hco]
    simp [hro]
  have h2 : backward ctx1 o none = .ok (ctx1.applyGrads o ⟨[], [1]⟩) :=
    backward_none_ok ctx1 o _ hndo1 hro hso
  have hcs2 : contribsCore ctx1.cores o ⟨[], [1]⟩ = cs := by
    rw [hcores1, hcsdef]
  have hnodes2 : (ctx1.applyGrads o ⟨[], [1]⟩).nodes =
      accumulateGrads ctx1.nodes cs := by
    simp only [Ctx.applyGrads]
    rw [hcs2]
  have hnd2 : (ctx1.applyGrads o ⟨[], [1]⟩).nodes[i]? =
      some { nd with grad := (nd.grad.add c).add c } := by
    rw [hnodes2]
    simp only [accumulateGrads]
    rw [List.getElem?_zipWith', hnd1, hci]
    simp [htrack]
  refine ⟨ctx1.applyGrads o ⟨[], [1]⟩, { nd with grad := nd.grad.add c },
    { nd with grad := (nd.grad.add c).add c }, h2, hnd1, hnd2, ?_⟩
  exact add_add_eq_scale_two nd.grad c hzero

instance : DecidableEq (Except AutogradError Ctx)
  | .error e, .error f => decidable_of_iff (e = f) (by simp)
  | .error _, .ok _ => isFalse (by simp)
  | .ok _, .error _ => isFalse (by simp)
  | .ok a, .ok b => decidable_of_iff (a = b) (by simp)

/-- A one-node context: a tracked scalar leaf with value 2 and zero gradient. -/
def ctxScalarLeaf : Ctx :=
  ⟨true, [{ value := ⟨[], [2]⟩, requiresGrad := true, gradFn := none,
            grad := ⟨[], [0]⟩ }]⟩

/-- `ctxScalarLeaf` after one backward pass: the gradient slot holds 0 + 1. -/
def ctxScalarLeaf1 : Ctx :=
  ⟨true, [{ value := ⟨[], [2]⟩, requiresGrad := true, gradFn := none,
            grad := Tensor.add ⟨[], [0]⟩ ⟨[], [1]⟩ }]⟩

/-- Witness for C1 at a concrete one-node graph. -/
theorem backward_twice_doubles_grad_witness :
    ∃ ctx2 nd1 nd2, backward ctxScalarLeaf1 0 none = .ok ctx2 ∧
      ctxScalarLeaf1.nodes[0]? = some nd1 ∧ ctx2.nodes[0]? = some nd2 ∧
      nd2.grad = Tensor.scale 2 nd1.grad :=
  backward_twice_doubles_grad ctxScalarLeaf ctxScalarLeaf1 0 0
    { value := ⟨[], [2]⟩, requiresGrad := true, gradFn := none, grad := ⟨[], [0]⟩ }
    rfl rfl rfl rfl (by decide)

/-- C2: an operation executed strictly inside the scoped no-tracking region
(after any earlier region body `g` that does not itself toggle the flag)
produces a node with tracking disabled and no operation record, regardless of
its inputs' tracking flags. -/
theorem no_grad_op_untracked (ctx : Ctx) (g : Ctx → Ctx) (k : OpKind)
    (ins : List Nat) (hg : ∀ c, (g c).gradEnabled = c.gradEnabled) :
    ∃ nd, (noGradRun (fun c => ((), forwardOp (g c) k ins)) ctx).2.nodes.getLast?
        = some nd ∧
      nd.requiresGrad = false ∧ nd.gradFn = none := by
  have hfalse : (g { ctx with gradEnabled := false }).gradEnabled = false :=
    hg { ctx with gradEnabled := false }
  refine ⟨{ value := evalOp k (ins.map (g { ctx with gradEnabled := false }).getValue),
            requiresGrad := false, gradFn := none,
            grad := Tensor.zeros (evalOp k
              (ins.map (g { ctx with gradEnabled := false }).getValue)).shape },
    ?_, rfl, rfl⟩
  simp only [noGradRun, forwardOp, hfalse, Bool.false_and]
  rw [List.getLast?_append_cons]
  rfl

/-- Witness for C2 with an identity region body and a tracked input node. -/
theorem no_grad_op_untracked_witness :
    ∃ nd, (noGradRun (fun c => ((), forwardOp (id c) OpKind.add [0, 0]))
        ctxScalarLeaf).2.nodes.getLast? = some nd ∧
      nd.requiresGrad = false ∧ nd.gradFn = none :=
  no_grad_op_untracked ctxScalarLeaf id OpKind.add [0, 0] (fun _ => rfl)

/-- C5: requesting the backward pass on a node with tracking disabled fails
with a GraphError rather than silently returning no gradients. -/
theorem backward_untracked_graphError (ctx : Ctx) (i : Nat) (nd : Node)
    (seed? : Option Tensor) (h : ctx.nodes[i]? = some nd)
    (huntracked : nd.requiresGrad = false) :
    backward ctx i seed? = .error .graphError := by
  unfold backward
  rw [h]
  simp [huntracked]

/-- A one-node context whose sole node has tracking disabled. -/
def ctxUntracked : Ctx :=
  ⟨true, [{ value := ⟨[], [3]⟩, requiresGrad := false, gradFn := none,
            grad := ⟨[], [0]⟩ }]⟩

/-- Witness for C5 on a concrete untracked node. -/
theorem backward_untracked_graphError_witness :
    backward ctxUntracked 0 none = .error .graphError :=
  backward_untracked_graphError ctxUntracked 0
    { value := ⟨[], [3]⟩, requiresGrad := false, gradFn := none,
      grad := ⟨[], [0]⟩ } none (by decide) rfl

/-- C6: the scoped no-tracking region runs its body on the context with
tracking set to disabled, and on every exit path (the body's outcome may be a
normal completion, an early return, or a raised error) the tracking flag
after the scope equals its value before the scope. -/
theorem noGrad_restores_tracking (f : Ctx → Outcome × Ctx) (ctx : Ctx) :
    (noGradRun f ctx).1 = (f { ctx with gradEnabled := false }).1 ∧
    (noGradRun f ctx).2.gradEnabled = ctx.gradEnabled :=
  ⟨rfl, rfl⟩

theorem zeroGradsFrom_getElem? (ps : List Nat) :
    ∀ (l : List Node) (k i : Nat),
      (zeroGradsFrom ps k l)[i]? = (l[i]?).map (fun nd =>
        if k + i ∈ ps then { nd with grad := Tensor.zeros nd.value.shape }
        else nd) := by
  intro l
  induction l with
  | nil => intro k i; rfl
  | cons nd rest ih =>
    intro k i
    cases i with
    | zero => simp [zeroGradsFrom]
    | succ j =>
      have harith : k + 1 + j = k + (j + 1) := by omega
      simp only [zeroGradsFrom, List.getElem?_cons_succ]
      rw [ih (k + 1) j, harith]

/-- C7: after the optimizer's zeroing step, every registered parameter's
gradient slot equals the zero tensor of that parameter's shape. -/
theorem zero_grad_zeroes (ctx : Ctx) (ps : List Nat) (i : Nat) (nd : Node)
    (hmem : i ∈ ps) (h : ctx.nodes[i]? = some nd) :
    ∃ nd', (zeroGrad ps ctx).nodes[i]? = some nd' ∧
      nd'.grad = Tensor.zeros nd'.value.shape := by
  refine ⟨{ nd with grad := Tensor.zeros nd.value.shape }, ?_, rfl⟩
  simp only [zeroGrad]
  rw [zeroGradsFrom_getElem?, h]
  simp [hmem]

/-- Witness for C7 on a concrete parameter. -/
theorem zero_grad_zeroes_witness :
    ∃ nd', (zeroGrad [0] ctxScalarLeaf1).nodes[0]? = some nd' ∧
      nd'.grad = Tensor.zeros nd'.value.shape :=
  zero_grad_zeroes ctxScalarLeaf1 [0] 0
    { value := ⟨[], [2]⟩, requiresGrad := true, gradFn := none,
      grad := Tensor.add ⟨[], [0]⟩ ⟨[], [1]⟩ } (by decide) rfl

/-- C8: the backward pass on a non-scalar output node without an explicit
gradient seed fails with an error; no default seed is assumed. -/
theorem backward_nonscalar_noseed_error (ctx : Ctx) (i : Nat) (nd : Node)
    (h : ctx.nodes[i]? = some nd) (htr : nd.requiresGrad = true)
    (hns : nd.value.isScalar = false) :
    backward ctx i none = .error .missingGradSeed := by
  unfold backward
  rw [h]
  simp [htr, hns]

/-- A one-node context whose sole node is a tracked length-2 vector. -/
def ctxVector : Ctx :=
  ⟨true, [{ value := ⟨[2], [1, 2]⟩, requiresGrad := true, gradFn := none,
            grad := ⟨[2], [0, 0]⟩ }]⟩

/-- Witness for C8 on a concrete tracked vector node. -/
theorem backward_nonscalar_noseed_error_witness :
    backward ctxVector 0 none = .error .missingGradSeed :=
  backward_nonscalar_noseed_error ctxVector 0
    { value := ⟨[2], [1, 2]⟩, requiresGrad := true, gradFn := none,
      grad := ⟨[2], [0, 0]⟩ } (by decide) rfl rfl

theorem sgdStepFrom_getElem? (ps : List Nat) (lr : ℚ) :
    ∀ (l : List Node) (k i : Nat),
      (sgdStepFrom ps lr k l)[i]? = (l[i]?).map (fun nd =>
        if k + i ∈ ps then
          { nd with value := nd.value.sub (Tensor.scale lr nd.grad) }
        else nd) := by
  intro l
  induction l with
  | nil => intro k i; rfl
  | cons nd rest ih =>
    intro k i
    cases i with
    | zero => simp [sgdStepFrom]
    | succ j =>
      have harith : k + 1 + j = k + (j + 1) := by omega
      simp only [sgdStepFrom, List.getElem?_cons_succ]
      rw [ih (k + 1) j, harith]

/-- C3: in the train phase the driver handles each batch through the
per-batch body, in order: forward evaluation and loss computation (building
the graph from a tracking-enabled context), the backward pass seeded at the
loss, the optimizer update — which reads each parameter's accumulated
gradient, producing value − learning rate × gradient — and only then the
zeroing of every parameter's gradient slot. -/
theorem train_loop_batch_order {β : Type} (lossOf : β → Ctx → Ctx × Nat)
    (ps : List Nat) (lr : ℚ) (b : β) (bs : List β) (ctx ctx2 : Ctx)
    (_htrack : ctx.gradEnabled = true)
    (hb : backward (lossOf b ctx).1 (lossOf b ctx).2 none = .ok ctx2) :
    ∃ ctx', trainStep lossOf ps lr ctx b = .ok ctx' ∧
      train_loop lossOf ps lr (b :: bs) ctx = train_loop lossOf ps lr bs ctx' ∧
      ∀ i nd, i ∈ ps → ctx2.nodes[i]? = some nd →
        ∃ nd', ctx'.nodes[i]? = some nd' ∧
          nd'.value = nd.value.sub (Tensor.scale lr nd.grad) ∧
          nd'.grad = Tensor.zeros nd'.value.shape := by
  have hstep : trainStep lossOf ps lr ctx b = .ok (zeroGrad ps (sgdStep ps lr ctx2)) := by
    unfold trainStep
    rw [hb]
  refine ⟨zeroGrad ps (sgdStep ps lr ctx2), hstep, ?_, ?_⟩
  · simp only [train_loop, hstep]
  · intro i nd hmem hnd
    have h1 : (sgdStep ps lr ctx2).nodes[i]? =
        some { nd with value := nd.value.sub (Tensor.scale lr nd.grad) } := by
      simp only [sgdStep]
      rw [sgdStepFrom_getElem?, hnd]
      simp [hmem]
    refine ⟨{ nd with
        value := nd.value.sub (Tensor.scale lr nd.grad)
        grad := Tensor.zeros (nd.value.sub (Tensor.scale lr nd.grad)).shape },
      ?_, rfl, rfl⟩
    simp only [zeroGrad]
    rw [zeroGradsFrom_getElem?, h1]
    simp [hmem]

/-- Witness for C3 on a one-parameter model whose loss is the parameter
itself. -/
theorem train_loop_batch_order_witness :
    ∃ ctx', trainStep (fun (_ : Unit) c => (c, 0)) [0] 1 ctxScalarLeaf () = .ok ctx' ∧
      train_loop (fun (_ : Unit) c => (c, 0)) [0] 1 [()] ctxScalarLeaf =
        train_loop (fun (_ : Unit) c => (c, 0)) [0] 1 [] ctx' ∧
      ∀ i nd, i ∈ [0] → ctxScalarLeaf1.nodes[i]? = some nd →
        ∃ nd', ctx'.nodes[i]? = some nd' ∧
          nd'.value = nd.value.sub (Tensor.scale 1 nd.grad) ∧
          nd'.grad = Tensor.zeros nd'.value.shape :=
  train_loop_batch_order (fun (_ : Unit) c => (c, 0)) [0] 1 () []
    ctxScalarLeaf ctxScalarLeaf1 rfl rfl

/-- C9: a configuration with a non-positive learning rate, batch size, or
epoch count is rejected at setup with a ConfigurationError, before the
training entry point performs any forward, backward, or update computation
(for every model, data source, and starting state, the entry point returns
the error directly). -/
theorem invalid_config_rejected {β γ : Type} (cfg : Config)
    (lossOf : β → Ctx → Ctx × Nat) (fwd : γ → Ctx → Ctx × List (List ℚ))
    (lossFn : List (List ℚ) → List Nat → ℚ) (ps : List Nat)
    (trainBatches : List β) (testBatches : List (Batch γ)) (ctx : Ctx)
    (hbad : cfg.learningRate ≤ 0 ∨ cfg.batchSize ≤ 0 ∨ cfg.epochs ≤ 0) :
    validateConfig cfg = .error .configurationError ∧
    trainEntry cfg lossOf fwd lossFn ps trainBatches testBatches ctx =
      .error .configurationError := by
  have hneg : ¬(0 < cfg.learningRate ∧ 0 < cfg.batchSize ∧ 0 < cfg.epochs) := by
    rcases hbad with h | h | h
    · exact fun hc => absurd hc.1 (not_lt.mpr h)
    · exact fun hc => absurd hc.2.1 (not_lt.mpr h)
    · exact fun hc => absurd hc.2.2 (not_lt.mpr h)
  have hval : validateConfig cfg = .error .configurationError := by
    unfold validateConfig
    rw [if_neg hneg]
  refine ⟨hval, ?_⟩
  unfold trainEntry
  rw [hval]

/-- Witness for C9 with a zero learning rate. -/
theorem invalid_config_rejected_witness :
    validateConfig ⟨0, 64, 5⟩ = .error .configurationError ∧
    trainEntry ⟨0, 64, 5⟩ (fun (_ : Unit) c => (c, 0))
      (fun (_ : Unit) c => (c, [])) (fun _ _ => 0) [] [] [] ⟨true, []⟩ =
      .error .configurationError :=
  invalid_config_rejected ⟨0, 64, 5⟩ (fun (_ : Unit) c => (c, 0))
    (fun (_ : Unit) c => (c, [])) (fun _ _ => 0) [] [] [] ⟨true, []⟩
    (Or.inl le_rfl)

theorem argmaxAux_map {α β : Type} [LinearOrder α] [LinearOrder β]
    {f : α → β} (hf : StrictMono f) :
    ∀ (l : List α) (i : Nat) (bv : α) (best : Nat),
      argmaxAux (l.map f) i (f bv) best = argmaxAux l i bv best := by
  intro l
  induction l with
  | nil => intro i bv best; rfl
  | cons v rest ih =>
    intro i bv best
    simp only [List.map_cons, argmaxAux]
    by_cases h : bv < v
    · rw [if_pos (hf h), if_pos h, ih]
    · rw [if_neg (fun hc => h (hf.lt_iff_lt.mp hc)), if_neg h, ih]

theorem argmaxIdx_map {α β : Type} [LinearOrder α] [LinearOrder β]
    {f : α → β} (hf : StrictMono f) (l : List α) :
    argmaxIdx (l.map f) = argmaxIdx l := by
  cases l with
  | nil => rfl
  | cons v rest =>
    simp only [List.map_cons, argmaxIdx]
    exact argmaxAux_map hf rest 1 v 0

/-- C10: for every logits vector, the index of the first maximal entry of
the softmax of the logits equals the index of the first maximal entry of the
raw logits, so applying argmax after softmax normalization and applying
argmax directly to the model outputs select the same predicted class. -/
theorem argmax_softmax_eq_argmax (l : List ℝ) :
    argmaxIdx (softmax l) = argmaxIdx l := by
  cases l with
  | nil => rfl
  | cons v rest =>
    have hs : 0 < ((v :: rest).map Real.exp).sum := by
      apply List.sum_pos
      · intro x hx
        rw [List.mem_map] at hx
        obtain ⟨a, _, rfl⟩ := hx
        exact Real.exp_pos a
      · simp
    have hmono :
        StrictMono (fun x : ℝ => Real.exp x / ((v :: rest).map Real.exp).sum) :=
      fun a b hab => (div_lt_div_iff_of_pos_right hs).mpr (Real.exp_lt_exp.mpr hab)
    exact argmaxIdx_map hmono (v :: rest)

/-- A forward pass is append-only when it only ever adds nodes to the graph,
leaving all existing nodes untouched (true of every composition of engine
operations). -/
def AppendOnly {β : Type} (fwd : β → Ctx → Ctx × List (List ℚ)) : Prop :=
  ∀ x c, ∃ new, ((fwd x c).1).nodes = c.nodes ++ new

theorem evalLoop_sums {β : Type} (fwd : β → Ctx → Ctx × List (List ℚ))
    (lossFn : List (List ℚ) → List Nat → ℚ) :
    ∀ (bs : List (Batch β)) (c : Ctx) (tl corr : ℚ),
      (bs.foldl (evalStep fwd lossFn) (c, tl, corr)).2.1 =
        tl + ((evalTrace fwd lossFn bs c).map Prod.fst).sum ∧
      (bs.foldl (evalStep fwd lossFn) (c, tl, corr)).2.2 =
        corr + ((evalTrace fwd lossFn bs c).map Prod.snd).sum := by
  intro bs
  induction bs with
  | nil => intro c tl corr; simp [evalTrace]
  | cons b rest ih =>
    intro c tl corr
    simp only [List.foldl_cons, evalStep, evalTrace, List.map_cons,
      List.sum_cons]
    have h := ih (fwd b.x c).1 (tl + lossFn (fwd b.x c).2 b.y)
      (corr + countCorrect (fwd b.x c).2 b.y)
    refine ⟨?_, ?_⟩
    · rw [h.1]; ring
    · rw [h.2]; ring

theorem evalLoop_appendOnly {β : Type} (fwd : β → Ctx → Ctx × List (List ℚ))
    (lossFn : List (List ℚ) → List Nat → ℚ) (hAO : AppendOnly fwd) :
    ∀ (bs : List (Batch β)) (c : Ctx) (tl corr : ℚ),
      ∃ new, (bs.foldl (evalStep fwd lossFn) (c, tl, corr)).1.nodes =
        c.nodes ++ new := by
  intro bs
  induction bs with
  | nil => intro c tl corr; exact ⟨[], by simp⟩
  | cons b rest ih =>
    intro c tl corr
    simp only [List.foldl_cons, evalStep]
    obtain ⟨n1, hn1⟩ := hAO b.x c
    obtain ⟨n2, hn2⟩ := ih (fwd b.x c).1 (tl + lossFn (fwd b.x c).2 b.y)
      (corr + countCorrect (fwd b.x c).2 b.y)
    exact ⟨n1 ++ n2, by rw [hn2, hn1, List.append_assoc]⟩

theorem countCorrect_eq_card :
    ∀ (preds : List (List ℚ)) (y : List Nat),
      countCorrect preds y =
        (((preds.zip y).filter
          (fun pl => decide (argmaxIdx pl.1 = pl.2))).length : ℚ) := by
  intro preds
  induction preds with
  | nil => intro y; simp [countCorrect]
  | cons p ps ih =>
    intro y
    cases y with
    | nil => simp [countCorrect]
    | cons l ys =>
      simp only [countCorrect, List.zipWith_cons_cons, List.sum_cons,
        List.zip_cons_cons, List.filter_cons]
      by_cases h : argmaxIdx p = l
      · rw [if_pos h]
        simp only [h, decide_True, if_true, List.length_cons]
        have := ih ys
        simp only [countCorrect] at this
        rw [this]
        push_cast
        ring
      · rw [if_neg h]
        simp only [decide_eq_true_eq, h, if_false]
        have := ih ys
        simp only [countCorrect] at this
        rw [this]
        ring

/-- C4: the evaluation phase runs the forward passes inside the scoped
no-tracking region (the per-batch trace is taken from the entry state with
tracking disabled) without updating any existing node; it reports mean loss
equal to the sum of the per-batch losses divided by the number of batches,
and accuracy equal to the correct count divided by the number of examples;
and an example counts as correct exactly when the argmax of its prediction
vector equals its true label. -/
theorem test_loop_spec {β : Type} (fwd : β → Ctx → Ctx × List (List ℚ))
    (lossFn : List (List ℚ) → List Nat → ℚ) (batches : List (Batch β))
    (ctx : Ctx) (hAO : AppendOnly fwd) :
    (∀ i, i < ctx.nodes.length →
      (test_loop fwd lossFn batches ctx).1.nodes[i]? = ctx.nodes[i]?) ∧
    (test_loop fwd lossFn batches ctx).1.gradEnabled = ctx.gradEnabled ∧
    (test_loop fwd lossFn batches ctx).2.1 =
      ((evalTrace fwd lossFn batches
        { ctx with gradEnabled := false }).map Prod.fst).sum /
        (batches.length : ℚ) ∧
    (test_loop fwd lossFn batches ctx).2.2 =
      ((evalTrace fwd lossFn batches
        { ctx with gradEnabled := false }).map Prod.snd).sum /
        (((batches.map (fun b => b.y.length)).sum : ℕ) : ℚ) ∧
    ∀ preds y, countCorrect preds y =
      (((preds.zip y).filter
        (fun pl => decide (argmaxIdx pl.1 = pl.2))).length : ℚ) := by
  have hfold := evalLoop_sums fwd lossFn batches
    { ctx with gradEnabled := false } 0 0
  obtain ⟨new, hnew⟩ := evalLoop_appendOnly fwd lossFn hAO batches
    { ctx with gradEnabled := false } 0 0
  have h1 : (test_loop fwd lossFn batches ctx).1.nodes =
      (batches.foldl (evalStep fwd lossFn)
        ({ ctx with gradEnabled := false }, 0, 0)).1.nodes := rfl
  have h2 : (test_loop fwd lossFn batches ctx).2.1 =
      (batches.foldl (evalStep fwd lossFn)
        ({ ctx with gradEnabled := false }, 0, 0)).2.1 /
        (batches.length : ℚ) := rfl
  have h3 : (test_loop fwd lossFn batches ctx).2.2 =
      (batches.foldl (evalStep fwd lossFn)
        ({ ctx with gradEnabled := false }, 0, 0)).2.2 /
        (((batches.map (fun b => b.y.length)).sum : ℕ) : ℚ) := rfl
  refine ⟨?_, rfl, ?_, ?_, countCorrect_eq_card⟩
  · intro i hi
    rw [h1, hnew, List.getElem?_append]
    rw [if_pos hi]
  · rw [h2, hfold.1, zero_add]
  · rw [h3, hfold.2, zero_add]

/-- A forward pass that ignores the context and predicts class 0. -/
def fwdConst : Unit → Ctx → Ctx × List (List ℚ) := fun _ c => (c, [[1, 0]])

/-- A loss function that is constantly 1. -/
def lossConst : List (List ℚ) → List Nat → ℚ := fun _ _ => 1

/-- A single evaluation batch with one example labelled 0. -/
def batchesOne : List (Batch Unit) := [⟨(), [0]⟩]

/-- Witness for C4 on a one-batch evaluation run. -/
theorem test_loop_spec_witness :
    (∀ i, i < ctxScalarLeaf.nodes.length →
      (test_loop fwdConst lossConst batchesOne ctxScalarLeaf).1.nodes[i]? =
        ctxScalarLeaf.nodes[i]?) ∧
    (test_loop fwdConst lossConst batchesOne ctxScalarLeaf).1.gradEnabled =
      ctxScalarLeaf.gradEnabled ∧
    (test_loop fwdConst lossConst batchesOne ctxScalarLeaf).2.1 =
      ((evalTrace fwdConst lossConst batchesOne
        { ctxScalarLeaf with gradEnabled := false }).map Prod.fst).sum /
        (batchesOne.length : ℚ) ∧
    (test_loop fwdConst lossConst batchesOne ctxScalarLeaf).2.2 =
      ((evalTrace fwdConst lossConst batchesOne
        { ctxScalarLeaf with gradEnabled := false }).map Prod.snd).sum /
        (((batchesOne.map (fun b => b.y.length)).sum : ℕ) : ℚ) ∧
    ∀ preds y, countCorrect preds y =
      (((preds.zip y).filter
        (fun pl => decide (argmaxIdx pl.1 = pl.2))).length : ℚ) :=
  test_loop_spec fwdConst lossConst batchesOne ctxScalarLeaf
    (fun _ c => ⟨[], (List.append_nil c.nodes).symm⟩)
